import Mathlib

/-!
Verification of the embedded shell subsystem of the remote-commander
repository: the VT100/ANSI terminal emulator of src/ui/terminal.rs and the
output-buffer handling of src/shell.rs, embedded shallowly in Lean.
Machine strings are modelled as lists of characters, byte buffers as lists
of natural numbers below 256.
-/

namespace RC

/-! Colors and styles, following the ratatui subset the code uses.
Style models ratatui Style restricted to the fields terminal.rs touches:
foreground, background, and the BOLD / UNDERLINED / REVERSED modifiers. -/

inductive Color where
  | Black | Red | Green | Yellow | Blue | Magenta | Cyan | White
  | DarkGray | LightRed | LightGreen | LightYellow | LightBlue
  | LightMagenta | LightCyan | Gray
  | Indexed (idx : Nat)
deriving DecidableEq

structure Style where
  fg : Option Color := none
  bg : Option Color := none
  bold : Bool := false
  underlined : Bool := false
  reversed : Bool := false
deriving DecidableEq

/-- Rust Style::default(): no colors, no modifiers. -/
def Style.mkDefault : Style := {}

/-- Rust style.fg(c). -/
def Style.setFg (s : Style) (c : Color) : Style := { s with fg := some c }

/-- Rust style.bg(c). -/
def Style.setBg (s : Style) (c : Color) : Style := { s with bg := some c }

/-- Style::default().fg(Color::White), the style TerminalBuffer::new starts
with and the style to_lines starts each line with. -/
def defaultStyle : Style := Style.mkDefault.setFg Color.White

/-- One grid cell: (char, Style), as in terminal.rs line 92. -/
abbrev Cell := Char × Style

/-- Rust char::is_control, the Unicode Cc category:
U+0000..U+001F and U+007F..U+009F. -/
def isControlChar (c : Char) : Bool :=
  c.toNat < 0x20 || (0x7f ≤ c.toNat && c.toNat ≤ 0x9f)

/-! Numeric parameter parsing. CSI parameter strings contain only ASCII
digits, semicolons and question marks (see the collector in
TerminalBuffer::process), so Rust str::parse::<usize> succeeds exactly on
nonempty all-digit strings whose value fits in the integer type (the
leading-sign forms Rust would also accept never occur here). usize is
64 bits on the supported targets. -/

def digitsToNat (s : List Char) : Nat :=
  s.foldl (fun acc c => acc * 10 + (c.toNat - '0'.toNat)) 0

/-- Rust params.parse::<usize>().ok() on a CSI parameter substring. -/
def parseUsize (s : List Char) : Option Nat :=
  if s ≠ [] ∧ s.all Char.isDigit ∧ digitsToNat s < 2 ^ 64 then
    some (digitsToNat s)
  else none

/-- Rust parts[i].parse::<u8>().ok() on a CSI parameter substring. -/
def parseU8 (s : List Char) : Option Nat :=
  if s ≠ [] ∧ s.all Char.isDigit ∧ digitsToNat s < 256 then
    some (digitsToNat s)
  else none

/-- Rust str::split(';') (keeps empty pieces; yields one piece for ""). -/
def splitSemis : List Char → List (List Char)
  | [] => [[]]
  | c :: rest =>
    if c = ';' then [] :: splitSemis rest
    else
      match splitSemis rest with
      | p :: ps => (c :: p) :: ps
      | [] => [[c]]

/-! The Style Resolver: parse_sgr_codes, terminal.rs lines 343-408.
sgrLoop is the while-i loop over the semicolon-separated parts; the Rust
loop walks an index i, and the arms for "38"/"48" advance i by two extra
positions exactly when at least two parts follow (i + 2 < parts.len())
and the next part is "5". -/

/-- The effect of one simple (single-part) SGR code on the style: the
non-extended arms of the match in parse_sgr_codes, including the in-loop
reset arm for "0" and the silent catch-all for unknown codes. -/
def sgrApply (p : List Char) (st : Style) : Style :=
  if p = ['0'] then Style.mkDefault.setFg Color.White
  else if p = ['1'] then { st with bold := true }
  else if p = ['4'] then { st with underlined := true }
  else if p = ['7'] then { st with reversed := true }
  else if p = ['3','0'] then st.setFg Color.Black
  else if p = ['3','1'] then st.setFg Color.Red
  else if p = ['3','2'] then st.setFg Color.Green
  else if p = ['3','3'] then st.setFg Color.Yellow
  else if p = ['3','4'] then st.setFg Color.Blue
  else if p = ['3','5'] then st.setFg Color.Magenta
  else if p = ['3','6'] then st.setFg Color.Cyan
  else if p = ['3','7'] then st.setFg Color.White
  else if p = ['9','0'] then st.setFg Color.DarkGray
  else if p = ['9','1'] then st.setFg Color.LightRed
  else if p = ['9','2'] then st.setFg Color.LightGreen
  else if p = ['9','3'] then st.setFg Color.LightYellow
  else if p = ['9','4'] then st.setFg Color.LightBlue
  else if p = ['9','5'] then st.setFg Color.LightMagenta
  else if p = ['9','6'] then st.setFg Color.LightCyan
  else if p = ['9','7'] then st.setFg Color.Gray
  else if p = ['4','0'] then st.setBg Color.Black
  else if p = ['4','1'] then st.setBg Color.Red
  else if p = ['4','2'] then st.setBg Color.Green
  else if p = ['4','3'] then st.setBg Color.Yellow
  else if p = ['4','4'] then st.setBg Color.Blue
  else if p = ['4','5'] then st.setBg Color.Magenta
  else if p = ['4','6'] then st.setBg Color.Cyan
  else if p = ['4','7'] then st.setBg Color.White
  else st

/-- The effect on the style of an extended color code p (which is "38" or
"48") with index part n: sets the indexed foreground or background when n
parses as a u8, and otherwise leaves the style unchanged. -/
def sgrExtended (p n : List Char) (st : Style) : Style :=
  if p = ['3','8'] then
    match parseU8 n with
    | some idx => st.setFg (Color.Indexed idx)
    | none => st
  else
    match parseU8 n with
    | some idx => st.setBg (Color.Indexed idx)
    | none => st

/-- One pass of the while-i loop of parse_sgr_codes. The Rust match tests
the simple codes and the two extended codes in one arm list; because all
those string comparisons are mutually exclusive, they are regrouped here:
the extended codes "38" / "48" first (they advance i by three when at
least two parts follow and the next part is "5", mirroring the
i + 2 < parts.len() check), and every other arm via sgrApply, which
advances i by one. -/
def sgrGo : Nat → List (List Char) → Style → Style
  | _, [], st => st
  | 0, _ :: _, st => st
  | fuel + 1, p :: rest, st =>
    if p = ['3','8'] ∨ p = ['4','8'] then
      match rest with
      | q :: n :: rest2 =>
        if q = ['5'] then sgrGo fuel rest2 (sgrExtended p n st)
        else sgrGo fuel rest st
      | _ => sgrGo fuel rest st
    else sgrGo fuel rest (sgrApply p st)

/-- The while-i loop over the parts, with fuel equal to the number of
parts; every iteration consumes at least one part, so this fuel is always
sufficient and the fuel-exhausted arm of sgrGo is unreachable. -/
def sgrLoop (parts : List (List Char)) (st : Style) : Style :=
  sgrGo parts.length parts st

/-- parse_sgr_codes (terminal.rs line 343): reset on empty or "0",
otherwise apply each code cumulatively via the loop. -/
def parse_sgr_codes (codes : List Char) (style : Style) : Style :=
  if codes = [] ∨ codes = ['0'] then Style.mkDefault.setFg Color.White
  else sgrLoop (splitSemis codes) style

/-! The virtual screen: TerminalBuffer, terminal.rs lines 91-132. -/

structure TerminalBuffer where
  lines : List (List Cell)
  cursor_row : Nat
  cursor_col : Nat
  current_style : Style
  max_cols : Nat
deriving DecidableEq

/-- TerminalBuffer::new (line 100). -/
def TerminalBuffer.new (max_cols max_lines : Nat) : TerminalBuffer :=
  { lines := List.replicate max_lines []
    cursor_row := 0
    cursor_col := 0
    current_style := defaultStyle
    max_cols := max_cols }

/-- ensure_line (line 110): while lines.len() <= row push an empty row,
i.e. pad the grid to length at least row + 1. -/
def TerminalBuffer.ensure_line (b : TerminalBuffer) (row : Nat) : TerminalBuffer :=
  { b with lines := b.lines ++ List.replicate (row + 1 - b.lines.length) [] }

/-- write_char (line 116). The while loop pads the current row with
(space, current_style) cells until its length exceeds cursor_col, i.e. to
length max(len, cursor_col + 1); the write itself happens only when
cursor_col < max_cols. After the padding cursor_col < row length always
holds, but the push branch of the Rust code is mirrored anyway. -/
def TerminalBuffer.write_char (b : TerminalBuffer) (ch : Char) : TerminalBuffer :=
  let b1 := b.ensure_line b.cursor_row
  let row := b1.lines.getD b1.cursor_row []
  let row1 := row ++ List.replicate (b1.cursor_col + 1 - row.length) (' ', b1.current_style)
  if b1.cursor_col < b1.max_cols then
    let row2 :=
      if b1.cursor_col < row1.length then
        row1.set b1.cursor_col (ch, b1.current_style)
      else row1 ++ [(ch, b1.current_style)]
    { b1 with
        lines := b1.lines.set b1.cursor_row row2
        cursor_col := b1.cursor_col + 1 }
  else { b1 with lines := b1.lines.set b1.cursor_row row1 }

/-- The tab handler of process (line 188): for each skipped column write a
space, left to right. -/
def TerminalBuffer.writeSpaces : TerminalBuffer → Nat → TerminalBuffer
  | b, 0 => b
  | b, n + 1 => TerminalBuffer.writeSpaces (b.write_char ' ') n

/-- handle_csi (terminal.rs lines 199-304). The arms for s, u, r, h, l and
every unrecognized command letter all leave the state unchanged and are
folded into the final catch-all. The J mode 0 body truncates the current
row at cursor_col and clears every later row; the K mode 1 body sets the
cells at indices 0 .. min(cursor_col, row.len()) (exclusive) to
(space, current_style), which is written here as a replicate-append of
the same length. -/
def TerminalBuffer.handle_csi (b : TerminalBuffer) (params : List Char) (cmd : Char) :
    TerminalBuffer :=
  if cmd = 'm' then { b with current_style := parse_sgr_codes params b.current_style }
  else if cmd = 'H' ∨ cmd = 'f' then
    let parts := splitSemis params
    let row := ((parts[0]?).bind parseUsize).getD 1 - 1
    let col := ((parts[1]?).bind parseUsize).getD 1 - 1
    { b with cursor_row := row, cursor_col := col }
  else if cmd = 'A' then { b with cursor_row := b.cursor_row - (parseUsize params).getD 1 }
  else if cmd = 'B' then { b with cursor_row := b.cursor_row + (parseUsize params).getD 1 }
  else if cmd = 'C' then
    { b with cursor_col := min (b.cursor_col + (parseUsize params).getD 1) (b.max_cols - 1) }
  else if cmd = 'D' then { b with cursor_col := b.cursor_col - (parseUsize params).getD 1 }
  else if cmd = 'J' then
    let mode := (parseUsize params).getD 0
    if mode = 0 then
      if b.cursor_row < b.lines.length then
        let trunc := (b.lines.getD b.cursor_row []).take b.cursor_col
        let cleared := b.lines.set b.cursor_row trunc
        let final := cleared.take (b.cursor_row + 1) ++
          List.replicate (cleared.length - (b.cursor_row + 1)) []
        { b with lines := final }
      else b
    else if mode = 2 then
      { b with lines := b.lines.map (fun _ => []), cursor_row := 0, cursor_col := 0 }
    else b
  else if cmd = 'K' then
    let mode := (parseUsize params).getD 0
    if b.cursor_row < b.lines.length then
      let row := b.lines.getD b.cursor_row []
      if mode = 0 then { b with lines := b.lines.set b.cursor_row (row.take b.cursor_col) }
      else if mode = 1 then
        let m := min b.cursor_col row.length
        let row2 := List.replicate m (' ', b.current_style) ++ row.drop m
        { b with lines := b.lines.set b.cursor_row row2 }
      else if mode = 2 then { b with lines := b.lines.set b.cursor_row [] }
      else b
    else b
  else if cmd = 'G' then
    { b with cursor_col := min ((parseUsize params).getD 1 - 1) (b.max_cols - 1) }
  else if cmd = 'd' then { b with cursor_row := (parseUsize params).getD 1 - 1 }
  else b

/-- The CSI parameter collector inside process (lines 144-152): take the
longest run of digits, semicolons and question marks. -/
def isParamChar (c : Char) : Bool := c.isDigit || c = ';' || c = '?'

def collectParams : List Char → List Char × List Char
  | [] => ([], [])
  | c :: rest =>
    if isParamChar c then
      let pr := collectParams rest
      (c :: pr.1, pr.2)
    else ([], c :: rest)

/-- The OSC skipper inside process (lines 158-167): drop characters up to
and including BEL or the two-byte terminator ESC backslash; prev holds the
previously consumed character and starts as a space. -/
def skipOsc (prev : Char) : List Char → List Char
  | [] => []
  | c :: rest =>
    if c = '\x07' ∨ (prev = '\x1b' ∧ c = '\\') then rest
    else skipOsc c rest

/-- TerminalBuffer::process (lines 134-197), written with explicit fuel so
that the recursion is structural. Every loop iteration consumes at least
the one character it inspects, so fuel equal to the length of the
remaining input is always sufficient; the fuel-exhausted arm is
unreachable when process below supplies that fuel. -/
def TerminalBuffer.processGo : Nat → TerminalBuffer → List Char → TerminalBuffer
  | _, b, [] => b
  | 0, b, _ :: _ => b
  | fuel + 1, b, ch :: rest =>
    if ch = '\x1b' then
      match rest with
      | [] => b
      | c2 :: rest2 =>
        if c2 = '[' then
          let pr := collectParams rest2
          match pr.2 with
          | cmd :: rest4 => TerminalBuffer.processGo fuel (b.handle_csi pr.1 cmd) rest4
          | [] => b
        else if c2 = ']' then TerminalBuffer.processGo fuel b (skipOsc ' ' rest2)
        else if c2 = '(' ∨ c2 = ')' then TerminalBuffer.processGo fuel b rest2.tail
        else if c2 = '=' ∨ c2 = '>' then TerminalBuffer.processGo fuel b rest2
        else TerminalBuffer.processGo fuel b rest2
    else if ch = '\n' then
      TerminalBuffer.processGo fuel { b with cursor_row := b.cursor_row + 1, cursor_col := 0 } rest
    else if ch = '\r' then
      TerminalBuffer.processGo fuel { b with cursor_col := 0 } rest
    else if ch = '\x08' then
      TerminalBuffer.processGo fuel
        (if b.cursor_col > 0 then { b with cursor_col := b.cursor_col - 1 } else b) rest
    else if ch = '\t' then
      TerminalBuffer.processGo fuel (b.writeSpaces (8 - b.cursor_col % 8)) rest
    else if isControlChar ch = false then
      TerminalBuffer.processGo fuel (b.write_char ch) rest
    else
      TerminalBuffer.processGo fuel b rest

/-- TerminalBuffer::process on a whole input. -/
def TerminalBuffer.process (b : TerminalBuffer) (text : List Char) : TerminalBuffer :=
  TerminalBuffer.processGo text.length b text

/-! Line records: to_lines, terminal.rs lines 306-339. A Span is one
styled text run; a line record is a list of spans. -/

structure Span where
  text : List Char
  style : Style
deriving DecidableEq

/-- One step of the run-coalescing loop inside to_lines: on a style change
flush the accumulated text (when nonempty) as a span, then append the
character to the (possibly cleared) text under the (possibly new) style. -/
def renderStep (acc : List Span × List Char × Style) (cell : Cell) :
    List Span × List Char × Style :=
  if cell.2 ≠ acc.2.2 then
    ((if acc.2.1 ≠ [] then acc.1 ++ [⟨acc.2.1, acc.2.2⟩] else acc.1), [cell.1], cell.2)
  else (acc.1, acc.2.1 ++ [cell.1], acc.2.2)

/-- The per-line body of to_lines: coalesce same-style runs, starting from
no spans, empty text and Style::default().fg(Color::White), and flush the
trailing text when nonempty. -/
def renderLine (line : List Cell) : List Span :=
  let acc := line.foldl renderStep ([], [], defaultStyle)
  if acc.2.1 ≠ [] then acc.1 ++ [⟨acc.2.1, acc.2.2⟩] else acc.1

/-- to_lines (line 306): skip empty rows; push the rendered spans of each
remaining row when nonempty. -/
def TerminalBuffer.to_lines (b : TerminalBuffer) : List (List Span) :=
  b.lines.foldl
    (fun result line =>
      if line.isEmpty then result
      else
        let spans := renderLine line
        if spans.isEmpty then result else result ++ [spans])
    []

/-- The visible text of one line record. -/
def lineText (spans : List Span) : List Char :=
  (spans.map Span.text).flatten

/-! A bounds-checked mirror of the interpreter, for the safety claim: every
place where the Rust code indexes into the grid (lines[cursor_row], and the
cells of that row) is replaced by an access that fails with none when the
index is out of bounds, exactly where Rust would panic. Vec::truncate and
the guarded cell writes of the K mode 1 loop never index past the length,
so the only checked reads are the lines[cursor_row] accesses. -/

def TerminalBuffer.write_charO (b : TerminalBuffer) (ch : Char) : Option TerminalBuffer :=
  let b1 := b.ensure_line b.cursor_row
  match b1.lines[b1.cursor_row]? with
  | none => none
  | some row =>
    let row1 := row ++ List.replicate (b1.cursor_col + 1 - row.length) (' ', b1.current_style)
    if b1.cursor_col < b1.max_cols then
      let row2 :=
        if b1.cursor_col < row1.length then
          row1.set b1.cursor_col (ch, b1.current_style)
        else row1 ++ [(ch, b1.current_style)]
      some { b1 with
               lines := b1.lines.set b1.cursor_row row2
               cursor_col := b1.cursor_col + 1 }
    else some { b1 with lines := b1.lines.set b1.cursor_row row1 }

def TerminalBuffer.writeSpacesO : TerminalBuffer → Nat → Option TerminalBuffer
  | b, 0 => some b
  | b, n + 1 =>
    match b.write_charO ' ' with
    | none => none
    | some b2 => TerminalBuffer.writeSpacesO b2 n

def TerminalBuffer.handle_csiO (b : TerminalBuffer) (params : List Char) (cmd : Char) :
    Option TerminalBuffer :=
  if cmd = 'm' then some { b with current_style := parse_sgr_codes params b.current_style }
  else if cmd = 'H' ∨ cmd = 'f' then
    let parts := splitSemis params
    let row := ((parts[0]?).bind parseUsize).getD 1 - 1
    let col := ((parts[1]?).bind parseUsize).getD 1 - 1
    some { b with cursor_row := row, cursor_col := col }
  else if cmd = 'A' then some { b with cursor_row := b.cursor_row - (parseUsize params).getD 1 }
  else if cmd = 'B' then some { b with cursor_row := b.cursor_row + (parseUsize params).getD 1 }
  else if cmd = 'C' then
    some { b with cursor_col := min (b.cursor_col + (parseUsize params).getD 1) (b.max_cols - 1) }
  else if cmd = 'D' then some { b with cursor_col := b.cursor_col - (parseUsize params).getD 1 }
  else if cmd = 'J' then
    let mode := (parseUsize params).getD 0
    if mode = 0 then
      if b.cursor_row < b.lines.length then
        match b.lines[b.cursor_row]? with
        | none => none
        | some row =>
          let cleared := b.lines.set b.cursor_row (row.take b.cursor_col)
          let final := cleared.take (b.cursor_row + 1) ++
            List.replicate (cleared.length - (b.cursor_row + 1)) []
          some { b with lines := final }
      else some b
    else if mode = 2 then
      some { b with lines := b.lines.map (fun _ => []), cursor_row := 0, cursor_col := 0 }
    else some b
  else if cmd = 'K' then
    let mode := (parseUsize params).getD 0
    if b.cursor_row < b.lines.length then
      match b.lines[b.cursor_row]? with
      | none => none
      | some row =>
        if mode = 0 then some { b with lines := b.lines.set b.cursor_row (row.take b.cursor_col) }
        else if mode = 1 then
          let m := min b.cursor_col row.length
          let row2 := List.replicate m (' ', b.current_style) ++ row.drop m
          some { b with lines := b.lines.set b.cursor_row row2 }
        else if mode = 2 then some { b with lines := b.lines.set b.cursor_row [] }
        else some b
    else some b
  else if cmd = 'G' then
    some { b with cursor_col := min ((parseUsize params).getD 1 - 1) (b.max_cols - 1) }
  else if cmd = 'd' then some { b with cursor_row := (parseUsize params).getD 1 - 1 }
  else some b

def TerminalBuffer.processGoO : Nat → TerminalBuffer → List Char → Option TerminalBuffer
  | _, b, [] => some b
  | 0, b, _ :: _ => some b
  | fuel + 1, b, ch :: rest =>
    if ch = '\x1b' then
      match rest with
      | [] => some b
      | c2 :: rest2 =>
        if c2 = '[' then
          let pr := collectParams rest2
          match pr.2 with
          | cmd :: rest4 =>
            match b.handle_csiO pr.1 cmd with
            | none => none
            | some b2 => TerminalBuffer.processGoO fuel b2 rest4
          | [] => some b
        else if c2 = ']' then TerminalBuffer.processGoO fuel b (skipOsc ' ' rest2)
        else if c2 = '(' ∨ c2 = ')' then TerminalBuffer.processGoO fuel b rest2.tail
        else if c2 = '=' ∨ c2 = '>' then TerminalBuffer.processGoO fuel b rest2
        else TerminalBuffer.processGoO fuel b rest2
    else if ch = '\n' then
      TerminalBuffer.processGoO fuel { b with cursor_row := b.cursor_row + 1, cursor_col := 0 } rest
    else if ch = '\r' then
      TerminalBuffer.processGoO fuel { b with cursor_col := 0 } rest
    else if ch = '\x08' then
      TerminalBuffer.processGoO fuel
        (if b.cursor_col > 0 then { b with cursor_col := b.cursor_col - 1 } else b) rest
    else if ch = '\t' then
      match b.writeSpacesO (8 - b.cursor_col % 8) with
      | none => none
      | some b2 => TerminalBuffer.processGoO fuel b2 rest
    else if isControlChar ch = false then
      match b.write_charO ch with
      | none => none
      | some b2 => TerminalBuffer.processGoO fuel b2 rest
    else
      TerminalBuffer.processGoO fuel b rest

def TerminalBuffer.processO (b : TerminalBuffer) (text : List Char) : Option TerminalBuffer :=
  TerminalBuffer.processGoO text.length b text

/-! The local shell output buffer (src/shell.rs lines 53-74). The reader
thread reads chunks of at most BUFFER_SIZE = 8192 bytes and, under the
buffer lock, appends each chunk, then drains the oldest 50,000 bytes when
the length exceeds 100,000. Bytes are modelled as natural numbers. -/

def BUFFER_SIZE : Nat := 8192

/-- One append-and-evict mutation of the reader thread: extend_from_slice
followed by the cap check; Vec::drain(..50_000) removes the first 50,000
elements (the length is greater than 100,000 at that point, so the drain
bound is within the buffer). -/
def appendChunk (buffer chunk : List Nat) : List Nat :=
  let buffer2 := buffer ++ chunk
  if buffer2.length > 100000 then buffer2.drop 50000 else buffer2

/-- The buffer contents after the reader thread has consumed the given
chunks, starting from the empty buffer created in LocalShell::new. -/
def runReader (chunks : List (List Nat)) : List Nat :=
  chunks.foldl appendChunk []

/-! Rust String::from_utf8_lossy, used by get_output: standard UTF-8
decoding where every maximal invalid subpart is replaced by U+FFFD. -/

def isCont (b : Nat) : Bool := 0x80 ≤ b && b ≤ 0xBF

def replacementChar : Char := Char.ofNat 0xFFFD

/-- Valid range of the second byte of a multi-byte sequence headed by b0. -/
def utf8Second (b0 b1 : Nat) : Bool :=
  if b0 = 0xE0 then 0xA0 ≤ b1 && b1 ≤ 0xBF
  else if b0 = 0xED then 0x80 ≤ b1 && b1 ≤ 0x9F
  else if b0 = 0xF0 then 0x90 ≤ b1 && b1 ≤ 0xBF
  else if b0 = 0xF4 then 0x80 ≤ b1 && b1 ≤ 0x8F
  else isCont b1

def utf8Go : Nat → List Nat → List Char
  | _, [] => []
  | 0, _ :: _ => []
  | fuel + 1, b0 :: rest =>
    if b0 < 0x80 then Char.ofNat b0 :: utf8Go fuel rest
    else if 0xC2 ≤ b0 && b0 ≤ 0xDF then
      match rest with
      | [] => [replacementChar]
      | b1 :: rest2 =>
        if isCont b1 then
          Char.ofNat ((b0 - 0xC0) * 64 + (b1 - 0x80)) :: utf8Go fuel rest2
        else replacementChar :: utf8Go fuel rest
    else if 0xE0 ≤ b0 && b0 ≤ 0xEF then
      match rest with
      | [] => [replacementChar]
      | b1 :: rest2 =>
        if utf8Second b0 b1 then
          match rest2 with
          | [] => [replacementChar]
          | b2 :: rest3 =>
            if isCont b2 then
              Char.ofNat ((b0 - 0xE0) * 4096 + (b1 - 0x80) * 64 + (b2 - 0x80)) :: utf8Go fuel rest3
            else replacementChar :: utf8Go fuel rest2
        else replacementChar :: utf8Go fuel rest
    else if 0xF0 ≤ b0 && b0 ≤ 0xF4 then
      match rest with
      | [] => [replacementChar]
      | b1 :: rest2 =>
        if utf8Second b0 b1 then
          match rest2 with
          | [] => [replacementChar]
          | b2 :: rest3 =>
            if isCont b2 then
              match rest3 with
              | [] => [replacementChar]
              | b3 :: rest4 =>
                if isCont b3 then
                  Char.ofNat ((b0 - 0xF0) * 262144 + (b1 - 0x80) * 4096 +
                    (b2 - 0x80) * 64 + (b3 - 0x80)) :: utf8Go fuel rest4
                else replacementChar :: utf8Go fuel rest3
            else replacementChar :: utf8Go fuel rest2
        else replacementChar :: utf8Go fuel rest
    else replacementChar :: utf8Go fuel rest

/-- String::from_utf8_lossy on a whole byte buffer; every iteration of
utf8Go consumes at least one byte, so fuel equal to the length is always
sufficient. -/
def utf8Lossy (bytes : List Nat) : List Char :=
  utf8Go bytes.length bytes

/-! The remote shell variant (src/shell.rs lines 118-167). Only the output
buffer is modelled; input bytes and resize requests go to the SSH channel,
which is outside this core. RemoteShell::new creates an empty buffer and
spawns no reader thread; read_available is a no-op returning Ok(()). -/

inductive RemoteOp where
  | write_input (data : List Nat)
  | read_available
  | clear_output
  | resize (rows cols : Nat)

/-- The buffer RemoteShell::new starts with: Vec::new(). -/
def remoteNew : List Nat := []

/-- Effect of each RemoteShell method on the output buffer: write_input and
resize only touch the channel, read_available is the no-op of lines
142-147, clear_output empties the buffer. -/
def remoteStep (buffer : List Nat) : RemoteOp → List Nat
  | .write_input _ => buffer
  | .read_available => buffer
  | .clear_output => []
  | .resize _ _ => buffer

def remoteRun (ops : List RemoteOp) : List Nat :=
  ops.foldl remoteStep remoteNew

/-- RemoteShell::get_output: String::from_utf8_lossy(&buffer).to_string(). -/
def remote_get_output (buffer : List Nat) : List Char :=
  utf8Lossy buffer

/-! Lock usage of the local session host (src/shell.rs). Each code path
that touches the two guarded resources (the raw output buffer and the
cached string) is recorded as its sequence of acquire and release events,
read off the lexical scopes of the lock() calls:
the reader thread append path (lines 58-68) acquires the cache lock
inside the buffer lock scope; get_output (lines 99-105) takes only the
cache lock; clear_output (lines 90-97) takes the buffer lock, releases
it, then takes the cache lock. -/

inductive LockEvent where
  | acqBuffer | relBuffer | acqCache | relCache
deriving DecidableEq

def readerAppendPath : List LockEvent :=
  [.acqBuffer, .acqCache, .relCache, .relBuffer]

def getOutputPath : List LockEvent :=
  [.acqCache, .relCache]

def clearOutputPath : List LockEvent :=
  [.acqBuffer, .relBuffer, .acqCache, .relCache]

/-- Whether, at some point while executing the events, both locks are held
at once; held tracks (buffer held, cache held). -/
def bothHeldEver (held : Bool × Bool) : List LockEvent → Bool
  | [] => false
  | e :: rest =>
    let held2 :=
      match e with
      | .acqBuffer => (true, held.2)
      | .relBuffer => (false, held.2)
      | .acqCache => (held.1, true)
      | .relCache => (held.1, false)
    (held2.1 && held2.2) || bothHeldEver held2 rest

def pathHoldsBoth (p : List LockEvent) : Bool :=
  bothHeldEver (false, false) p

/-! Definitions supporting the proofs: abstract states reached while
processing escape-free text, and classifier functions read off the code. -/

/-- The combined effect of one non-escape input character on the state:
the newline, carriage return, backspace, tab, printable and
ignored-control branches of the loop in process. -/
def plainStep (b : TerminalBuffer) (ch : Char) : TerminalBuffer :=
  if ch = '\n' then { b with cursor_row := b.cursor_row + 1, cursor_col := 0 }
  else if ch = '\r' then { b with cursor_col := 0 }
  else if ch = '\x08' then
    (if b.cursor_col > 0 then { b with cursor_col := b.cursor_col - 1 } else b)
  else if ch = '\t' then b.writeSpaces (8 - b.cursor_col % 8)
  else if isControlChar ch = false then b.write_char ch
  else b

/-! Abstract processing states for escape-free text: after writing the rows
of done (one per finished line) and the partial row cur, with k spare empty
rows behind the current row (midState) or with no materialized current row
and k spare empty rows (freshState). -/

def mapRow (w : List Char) : List Cell := w.map (fun c => (c, defaultStyle))

def midState (done : List (List Char)) (cur : List Char) (k : Nat) : TerminalBuffer :=
  { lines := done.map mapRow ++ mapRow cur :: List.replicate k []
    cursor_row := done.length
    cursor_col := cur.length
    current_style := defaultStyle
    max_cols := 200 }

def freshState (done : List (List Char)) (k : Nat) : TerminalBuffer :=
  { lines := done.map mapRow ++ List.replicate k []
    cursor_row := done.length
    cursor_col := 0
    current_style := defaultStyle
    max_cols := 200 }

/-- The body of the to_lines fold, as a function of one row. -/
def rowRecords (line : List Cell) : List (List Span) :=
  if line.isEmpty then []
  else if (renderLine line).isEmpty then [] else [renderLine line]

/-- The codes the resolver loop recognizes as the start of an arm; every
other part falls through to the silent catch-all. -/
def isKnownSgr (p : List Char) : Bool :=
  p = ['0'] || p = ['1'] || p = ['4'] || p = ['7'] ||
  p = ['3','0'] || p = ['3','1'] || p = ['3','2'] || p = ['3','3'] ||
  p = ['3','4'] || p = ['3','5'] || p = ['3','6'] || p = ['3','7'] ||
  p = ['9','0'] || p = ['9','1'] || p = ['9','2'] || p = ['9','3'] ||
  p = ['9','4'] || p = ['9','5'] || p = ['9','6'] || p = ['9','7'] ||
  p = ['4','0'] || p = ['4','1'] || p = ['4','2'] || p = ['4','3'] ||
  p = ['4','4'] || p = ['4','5'] || p = ['4','6'] || p = ['4','7'] ||
  p = ['3','8'] || p = ['4','8']

end RC

namespace RC

set_option maxRecDepth 8000

/-! Single-character unfolding lemmas for process. -/

theorem processGo_nil (n : Nat) (b : TerminalBuffer) : TerminalBuffer.processGo n b [] = b := by
  cases n <;> rfl

theorem char_ne_of_not_control {ch : Char} (hc : isControlChar ch = false) :
    ch ≠ '\x1b' ∧ ch ≠ '\n' ∧ ch ≠ '\r' ∧ ch ≠ '\x08' ∧ ch ≠ '\t' := by
  refine ⟨?_, ?_, ?_, ?_, ?_⟩ <;> (intro h; subst h; exact absurd hc (by decide))

theorem processGo_printable (fuel : Nat) (b : TerminalBuffer) (ch : Char) (rest : List Char)
    (hc : isControlChar ch = false) :
    TerminalBuffer.processGo (fuel + 1) b (ch :: rest) =
      TerminalBuffer.processGo fuel (b.write_char ch) rest := by
  obtain ⟨h1, h2, h3, h4, h5⟩ := char_ne_of_not_control hc
  simp only [TerminalBuffer.processGo, if_neg h1, if_neg h2, if_neg h3, if_neg h4, if_neg h5, hc,
    if_pos]

theorem process_printable (b : TerminalBuffer) (ch : Char) (rest : List Char)
    (hc : isControlChar ch = false) :
    b.process (ch :: rest) = (b.write_char ch).process rest :=
  processGo_printable rest.length b ch rest hc

theorem process_nl (b : TerminalBuffer) (rest : List Char) :
    b.process ('\n' :: rest) =
      TerminalBuffer.process { b with cursor_row := b.cursor_row + 1, cursor_col := 0 } rest := by
  show TerminalBuffer.processGo (rest.length + 1) b ('\n' :: rest) = _
  simp only [TerminalBuffer.processGo, if_neg (by decide : ('\n' : Char) ≠ '\x1b'), if_pos rfl]
  rfl

theorem process_cr (b : TerminalBuffer) (rest : List Char) :
    b.process ('\r' :: rest) = TerminalBuffer.process { b with cursor_col := 0 } rest := by
  show TerminalBuffer.processGo (rest.length + 1) b ('\r' :: rest) = _
  simp only [TerminalBuffer.processGo, if_neg (by decide : ('\r' : Char) ≠ '\x1b'),
    if_neg (by decide : ('\r' : Char) ≠ '\n'), if_pos rfl]
  rfl

theorem process_bs (b : TerminalBuffer) (rest : List Char) :
    b.process ('\x08' :: rest) =
      TerminalBuffer.process
        (if b.cursor_col > 0 then { b with cursor_col := b.cursor_col - 1 } else b) rest := by
  show TerminalBuffer.processGo (rest.length + 1) b ('\x08' :: rest) = _
  simp only [TerminalBuffer.processGo, if_neg (by decide : ('\x08' : Char) ≠ '\x1b'),
    if_neg (by decide : ('\x08' : Char) ≠ '\n'), if_neg (by decide : ('\x08' : Char) ≠ '\r'),
    if_pos rfl]
  rfl

theorem process_tab (b : TerminalBuffer) (rest : List Char) :
    b.process ('\t' :: rest) = (b.writeSpaces (8 - b.cursor_col % 8)).process rest := by
  show TerminalBuffer.processGo (rest.length + 1) b ('\t' :: rest) = _
  simp only [TerminalBuffer.processGo, if_neg (by decide : ('\t' : Char) ≠ '\x1b'),
    if_neg (by decide : ('\t' : Char) ≠ '\n'), if_neg (by decide : ('\t' : Char) ≠ '\r'),
    if_neg (by decide : ('\t' : Char) ≠ '\x08'), if_pos rfl]
  rfl

theorem process_other_control (b : TerminalBuffer) (ch : Char) (rest : List Char)
    (hc : isControlChar ch = true) (h1 : ch ≠ '\x1b') (h2 : ch ≠ '\n') (h3 : ch ≠ '\r')
    (h4 : ch ≠ '\x08') (h5 : ch ≠ '\t') :
    b.process (ch :: rest) = b.process rest := by
  show TerminalBuffer.processGo (rest.length + 1) b (ch :: rest) = _
  simp only [TerminalBuffer.processGo, if_neg h1, if_neg h2, if_neg h3, if_neg h4, if_neg h5, hc]
  rfl



theorem processGo_cons_noesc (fuel : Nat) (b : TerminalBuffer) (ch : Char) (rest : List Char)
    (h : ch ≠ '\x1b') :
    TerminalBuffer.processGo (fuel + 1) b (ch :: rest) =
      TerminalBuffer.processGo fuel (plainStep b ch) rest := by
  simp only [TerminalBuffer.processGo, if_neg h]
  unfold plainStep
  split_ifs <;> rfl

theorem process_cons_noesc (b : TerminalBuffer) (ch : Char) (rest : List Char)
    (h : ch ≠ '\x1b') :
    b.process (ch :: rest) = (plainStep b ch).process rest :=
  processGo_cons_noesc rest.length b ch rest h

theorem process_append_noesc (xs : List Char) (h : ∀ c ∈ xs, c ≠ '\x1b') (b : TerminalBuffer)
    (ys : List Char) :
    b.process (xs ++ ys) = (b.process xs).process ys := by
  induction xs generalizing b with
  | nil => rfl
  | cons c xs2 ih =>
    have hc : c ≠ '\x1b' := h c (List.mem_cons_self c xs2)
    rw [List.cons_append, process_cons_noesc _ _ _ hc, process_cons_noesc _ _ _ hc,
      ih (fun d hd => h d (List.mem_cons_of_mem c hd))]


/-! List helpers for the grid computations. -/

theorem getD_append_length {A : Type} (l1 l2 : List A) (x d : A) :
    (l1 ++ x :: l2).getD l1.length d = x := by
  rw [List.getD_eq_getElem?_getD, List.getElem?_append_right (Nat.le_refl _)]
  simp

theorem set_append_length {A : Type} (l1 l2 : List A) (x y : A) :
    (l1 ++ x :: l2).set l1.length y = l1 ++ y :: l2 := by
  simp [List.set_append]

theorem freshState_succ (done : List (List Char)) (k : Nat) :
    freshState done (k + 1) = midState done [] k := by
  simp [freshState, midState, List.replicate_succ, mapRow]

theorem ensure_line_mid (done : List (List Char)) (cur : List Char) (k : Nat) :
    (midState done cur k).ensure_line (midState done cur k).cursor_row = midState done cur k := by
  have hlen : (midState done cur k).lines.length = done.length + (k + 1) := by
    simp [midState]
  have : (midState done cur k).cursor_row + 1 - (midState done cur k).lines.length = 0 := by
    simp [hlen, midState]
  simp [TerminalBuffer.ensure_line, this]

theorem ensure_line_fresh_zero (done : List (List Char)) :
    (freshState done 0).ensure_line (freshState done 0).cursor_row = midState done [] 0 := by
  have hlen : (freshState done 0).lines.length = done.length := by simp [freshState]
  have : (freshState done 0).cursor_row + 1 - (freshState done 0).lines.length = 1 := by
    simp [hlen, freshState]
  simp [TerminalBuffer.ensure_line, this, freshState, midState, mapRow]

theorem write_char_congr (b c : TerminalBuffer) (ch : Char)
    (h : b.ensure_line b.cursor_row = c.ensure_line c.cursor_row) :
    b.write_char ch = c.write_char ch := by
  unfold TerminalBuffer.write_char
  rw [h]

theorem write_char_mid (done : List (List Char)) (cur : List Char) (k : Nat) (ch : Char)
    (hlen : cur.length < 200) :
    (midState done cur k).write_char ch = midState done (cur ++ [ch]) k := by
  unfold TerminalBuffer.write_char
  rw [ensure_line_mid]
  simp only [midState]
  have hgetD : ((List.map mapRow done ++ mapRow cur :: List.replicate k []).getD done.length [])
      = mapRow cur := by
    rw [show done.length = (List.map mapRow done).length by simp]
    exact getD_append_length _ _ _ _
  simp only [hgetD]
  have hrowlen : (mapRow cur).length = cur.length := by simp [mapRow]
  simp only [hrowlen]
  have hpad : cur.length + 1 - cur.length = 1 := by omega
  rw [hpad]
  simp only [List.replicate_one]
  rw [if_pos hlen]
  have hlt : cur.length < (mapRow cur ++ [(' ', defaultStyle)]).length := by
    simp [hrowlen]
  rw [if_pos hlt]
  have hset1 : (mapRow cur ++ [(' ', defaultStyle)]).set cur.length (ch, defaultStyle) =
      mapRow cur ++ [(ch, defaultStyle)] := by
    conv_lhs => rw [show cur.length = (mapRow cur).length from hrowlen.symm]
    exact set_append_length _ [] _ _
  rw [hset1]
  have hset2 : ((List.map mapRow done) ++ mapRow cur :: List.replicate k []).set done.length
      (mapRow cur ++ [(ch, defaultStyle)]) =
      (List.map mapRow done) ++ (mapRow cur ++ [(ch, defaultStyle)]) :: List.replicate k [] := by
    conv_lhs => rw [show done.length = (List.map mapRow done).length by simp]
    exact set_append_length _ _ _ _
  rw [hset2]
  have hmr : mapRow cur ++ [(ch, defaultStyle)] = mapRow (cur ++ [ch]) := by
    simp [mapRow]
  rw [hmr]
  simp [List.length_append]

theorem write_char_fresh (done : List (List Char)) (k : Nat) (ch : Char) :
    (freshState done k).write_char ch = midState done [ch] (k - 1) := by
  cases k with
  | zero =>
    rw [write_char_congr (freshState done 0) (midState done [] 0) ch]
    · exact write_char_mid done [] 0 ch (by norm_num)
    · rw [ensure_line_fresh_zero, ensure_line_mid]
  | succ k2 =>
    rw [freshState_succ]
    exact write_char_mid done [] k2 ch (by norm_num)


theorem process_nil (b : TerminalBuffer) : b.process [] = b := rfl

theorem process_word (w : List Char) (hw : ∀ c ∈ w, isControlChar c = false) :
    ∀ (done : List (List Char)) (cur : List Char) (k : Nat), cur.length + w.length ≤ 200 →
      (midState done cur k).process w = midState done (cur ++ w) k := by
  induction w with
  | nil => intro done cur k _; simp [process_nil]
  | cons c w2 ih =>
    intro done cur k hlen
    have hc : isControlChar c = false := hw c (List.mem_cons_self c w2)
    rw [process_printable _ _ _ hc,
      write_char_mid done cur k c (by simp at hlen; omega)]
    rw [ih (fun d hd => hw d (List.mem_cons_of_mem c hd)) done (cur ++ [c]) k
      (by simp at hlen ⊢; omega)]
    simp

theorem nl_from_mid (done : List (List Char)) (cur : List Char) (k : Nat) :
    { midState done cur k with
        cursor_row := (midState done cur k).cursor_row + 1, cursor_col := 0 } =
      freshState (done ++ [cur]) k := by
  simp [midState, freshState]

theorem process_word_fresh (w : List Char) (hw : ∀ c ∈ w, isControlChar c = false)
    (hne : w ≠ []) (done : List (List Char)) (k : Nat) (hlen : w.length ≤ 200) :
    (freshState done k).process w = midState done w (k - 1) := by
  cases w with
  | nil => exact absurd rfl hne
  | cons c w2 =>
    have hc : isControlChar c = false := hw c (List.mem_cons_self c w2)
    rw [process_printable _ _ _ hc, write_char_fresh]
    rw [process_word w2 (fun d hd => hw d (List.mem_cons_of_mem c hd)) done [c] (k - 1)
      (by simp at hlen ⊢; omega)]
    simp

theorem process_segs (segs : List (List Char))
    (hwf : ∀ s ∈ segs, s ≠ [] ∧ s.length ≤ 200 ∧ ∀ c ∈ s, isControlChar c = false) :
    ∀ (hne : segs ≠ []) (done : List (List Char)) (k : Nat), ∃ k2,
      (freshState done k).process (List.intercalate ['\n'] segs) =
        midState (done ++ segs.dropLast) (segs.getLast hne) k2 := by
  induction segs with
  | nil => intro hne; exact absurd rfl hne
  | cons s t ih =>
    intro hne done k
    obtain ⟨hs1, hs2, hs3⟩ := hwf s (List.mem_cons_self s t)
    cases t with
    | nil =>
      refine ⟨k - 1, ?_⟩
      have hsingle : List.intercalate ['\n'] [s] = s := by simp [List.intercalate]
      rw [hsingle, process_word_fresh s hs3 hs1 done k hs2]
      simp
    | cons s2 t2 =>
      have hchain : List.intercalate ['\n'] (s :: s2 :: t2) =
          s ++ ['\n'] ++ List.intercalate ['\n'] (s2 :: t2) := by
        simp [List.intercalate, List.intersperse]
      have hnoesc : ∀ c ∈ s, c ≠ '\x1b' := by
        intro c hcmem heq
        have := hs3 c hcmem
        rw [heq] at this
        exact absurd this (by decide)
      rw [hchain, List.append_assoc, process_append_noesc s hnoesc]
      rw [process_word_fresh s hs3 hs1 done k hs2]
      rw [List.singleton_append, process_nl, nl_from_mid]
      obtain ⟨k2, hk2⟩ := ih (fun x hx => hwf x (List.mem_cons_of_mem s hx))
        (by simp) (done ++ [s]) (k - 1)
      refine ⟨k2, ?_⟩
      rw [hk2]
      have hdl : (s :: s2 :: t2).dropLast = s :: (s2 :: t2).dropLast := rfl
      have hgl : (s :: s2 :: t2).getLast hne = (s2 :: t2).getLast (by simp) := by
        exact List.getLast_cons (by simp)
      rw [hdl, hgl]
      congr 1
      simp


/-! Characterization of to_lines: it maps renderLine over the nonempty
rows, skipping every empty row. -/

theorem renderStep_text_ne (cells : List Cell) :
    ∀ (spans : List Span) (text : List Char) (st : Style), cells ≠ [] →
      (cells.foldl renderStep (spans, text, st)).2.1 ≠ [] := by
  induction cells with
  | nil => intro _ _ _ h; exact absurd rfl h
  | cons c cs ih =>
    intro spans text st _
    cases cs with
    | nil =>
      simp only [List.foldl_cons, List.foldl_nil, renderStep]
      split_ifs <;> simp
    | cons d ds =>
      simp only [List.foldl_cons]
      exact ih _ _ _ (by simp)

theorem renderLine_ne_nil (l : List Cell) (h : l ≠ []) : renderLine l ≠ [] := by
  unfold renderLine
  have htext := renderStep_text_ne l [] [] defaultStyle h
  rw [if_pos htext]
  simp


theorem toLines_fold_step (acc : List (List Span)) (line : List Cell) :
    (if line.isEmpty then acc
     else if (renderLine line).isEmpty then acc else acc ++ [renderLine line]) =
      acc ++ rowRecords line := by
  unfold rowRecords
  split_ifs <;> simp

theorem toLines_fold (ls : List (List Cell)) :
    ∀ acc : List (List Span),
      ls.foldl (fun result line =>
        if line.isEmpty then result
        else
          let spans := renderLine line
          if spans.isEmpty then result else result ++ [spans]) acc =
      acc ++ (ls.map rowRecords).flatten := by
  induction ls with
  | nil => intro acc; simp
  | cons l ls2 ih =>
    intro acc
    simp only [List.foldl_cons]
    rw [toLines_fold_step, ih, List.map_cons, List.flatten_cons, List.append_assoc]

theorem toLines_eq (b : TerminalBuffer) :
    b.to_lines = (b.lines.filter (fun l => !l.isEmpty)).map renderLine := by
  unfold TerminalBuffer.to_lines
  rw [toLines_fold b.lines []]
  rw [List.nil_append]
  induction b.lines with
  | nil => rfl
  | cons l ls ih =>
    by_cases hl : l = []
    · subst hl
      simpa [rowRecords] using ih
    · have h1 : l.isEmpty = false := by simpa [List.isEmpty_iff] using hl
      have h2 : (renderLine l).isEmpty = false := by
        simpa [List.isEmpty_iff] using renderLine_ne_nil l hl
      simp only [List.map_cons, List.flatten_cons, List.filter_cons, rowRecords, h1, h2]
      simpa [rowRecords] using ih

theorem foldl_renderStep_uniform (w : List Char) :
    ∀ (spans : List Span) (text : List Char),
      (mapRow w).foldl renderStep (spans, text, defaultStyle) =
        (spans, text ++ w, defaultStyle) := by
  induction w with
  | nil => intro spans text; simp [mapRow]
  | cons c w2 ih =>
    intro spans text
    simp only [mapRow, List.map_cons, List.foldl_cons]
    have hstep : renderStep (spans, text, defaultStyle) (c, defaultStyle) =
        (spans, text ++ [c], defaultStyle) := by
      simp [renderStep]
    rw [hstep]
    have := ih spans (text ++ [c])
    simp only [mapRow] at this
    rw [this, List.append_assoc]
    rfl

theorem renderLine_mapRow (w : List Char) (h : w ≠ []) :
    renderLine (mapRow w) = [⟨w, defaultStyle⟩] := by
  unfold renderLine
  rw [foldl_renderStep_uniform w [] []]
  simp [h]

theorem filter_replicate_empty (k : Nat) :
    (List.replicate k ([] : List Cell)).filter (fun l => !l.isEmpty) = [] := by
  induction k with
  | zero => rfl
  | succ k2 ih => simp [List.replicate_succ, ih]

theorem texts_mid (done : List (List Char)) (cur : List Char) (k : Nat)
    (hd : ∀ s ∈ done, s ≠ []) (hc : cur ≠ []) :
    (midState done cur k).to_lines.map lineText = done ++ [cur] := by
  rw [toLines_eq]
  have hlines : (midState done cur k).lines =
      done.map mapRow ++ mapRow cur :: List.replicate k [] := rfl
  rw [hlines]
  rw [List.filter_append]
  have hfd : (done.map mapRow).filter (fun l => !l.isEmpty) = done.map mapRow := by
    rw [List.filter_eq_self]
    intro row hrow
    obtain ⟨srow, hmem, hrfl⟩ := List.mem_map.mp hrow
    have : srow ≠ [] := hd srow hmem
    subst hrfl
    simpa [mapRow, List.isEmpty_iff] using this
  have hcur : mapRow cur ≠ [] := by simpa [mapRow] using hc
  have hfc : (mapRow cur :: List.replicate k []).filter (fun l => !l.isEmpty) = [mapRow cur] := by
    rw [List.filter_cons]
    simp only [filter_replicate_empty]
    simpa [List.isEmpty_iff] using hcur
  rw [hfd, hfc]
  rw [List.map_append, List.map_map]
  rw [List.map_append, List.map_map]
  have hdone : done.map (lineText ∘ (renderLine ∘ mapRow)) = done := by
    have hcg : ∀ s ∈ done, (lineText ∘ (renderLine ∘ mapRow)) s = id s := by
      intro s hs
      simp only [Function.comp_apply, id]
      rw [renderLine_mapRow s (hd s hs)]
      simp [lineText]
    rw [List.map_congr_left hcg, List.map_id]
  have hsingle : List.map lineText (List.map renderLine [mapRow cur]) = [cur] := by
    simp only [List.map_cons, List.map_nil]
    rw [renderLine_mapRow cur hc]
    simp [lineText]
  rw [hdone]
  simp only [List.map_cons, List.map_nil] at hsingle ⊢
  rw [renderLine_mapRow cur hc]
  simp [lineText]


/-- C1 (amended): for input consisting of printable characters and
newlines only, with every newline-separated segment nonempty and at most
max_cols characters long, the texts of the line records equal the input
split on the newline character; and both a bare carriage return and a
carriage return before a newline reset the column to 0 without touching
the grid. -/
theorem c1_plain_text_split :
    (∀ s : List Char,
       (∀ seg ∈ s.splitOn '\n',
          seg ≠ [] ∧ seg.length ≤ 200 ∧ ∀ c ∈ seg, isControlChar c = false) →
       (((TerminalBuffer.new 200 1000).process s).to_lines.map lineText = s.splitOn '\n'))
    ∧ (∀ b : TerminalBuffer, b.process ['\r'] = { b with cursor_col := 0 })
    ∧ (∀ b : TerminalBuffer,
        b.process ['\r', '\n'] = { b with cursor_row := b.cursor_row + 1, cursor_col := 0 }) := by
  refine ⟨?_, ?_, ?_⟩
  · intro s hwf
    have hne : s.splitOn '\n' ≠ [] := by
      rw [List.splitOn]
      exact List.splitOnP_ne_nil _ _
    have hs : List.intercalate ['\n'] (s.splitOn '\n') = s := List.intercalate_splitOn s '\n'
    obtain ⟨k2, hk⟩ := process_segs (s.splitOn '\n') hwf hne [] 1000
    have hnew : TerminalBuffer.new 200 1000 = freshState [] 1000 := by
      simp [TerminalBuffer.new, freshState]
    rw [hs] at hk
    rw [hnew, hk]
    rw [texts_mid ([] ++ (s.splitOn '\n').dropLast) ((s.splitOn '\n').getLast hne) k2
      (fun t ht => (hwf t (List.dropLast_subset _ (by simpa using ht))).1)
      ((hwf _ (List.getLast_mem hne)).1)]
    simp [List.dropLast_append_getLast hne]
  · intro b
    rw [process_cr]
    rfl
  · intro b
    rw [process_cr, process_nl]
    rfl

theorem c1_witness :
    ((TerminalBuffer.new 200 1000).process "ab\ncd".data).to_lines.map lineText =
      [['a', 'b'], ['c', 'd']] := by
  have h := c1_plain_text_split.1 "ab\ncd".data (by decide)
  rw [h]
  decide

theorem c1_counterexample :
    ((TerminalBuffer.new 200 1000).process "ab\rc\n\nd".data).to_lines.map lineText ≠
      "ab\rc\n\nd".data.splitOn '\n' := by
  decide


/-! Cursor column behavior. -/

theorem write_char_cursor_col (b : TerminalBuffer) (ch : Char) :
    (b.write_char ch).cursor_col =
      if b.cursor_col < b.max_cols then b.cursor_col + 1 else b.cursor_col := by
  unfold TerminalBuffer.write_char TerminalBuffer.ensure_line
  dsimp only
  split_ifs with h <;> rfl

theorem write_char_max_cols (b : TerminalBuffer) (ch : Char) :
    (b.write_char ch).max_cols = b.max_cols := by
  unfold TerminalBuffer.write_char TerminalBuffer.ensure_line
  dsimp only
  split_ifs with h <;> rfl

theorem write_char_col_le (b : TerminalBuffer) (ch : Char) (h : b.cursor_col ≤ b.max_cols) :
    (b.write_char ch).cursor_col ≤ b.max_cols := by
  rw [write_char_cursor_col]
  split_ifs with h2 <;> omega

theorem writeSpaces_max_cols (n : Nat) : ∀ b : TerminalBuffer,
    (b.writeSpaces n).max_cols = b.max_cols := by
  induction n with
  | zero => intro b; rfl
  | succ m ih =>
    intro b
    show ((b.write_char ' ').writeSpaces m).max_cols = b.max_cols
    rw [ih (b.write_char ' '), write_char_max_cols]

theorem writeSpaces_col_le (n : Nat) : ∀ b : TerminalBuffer, b.cursor_col ≤ b.max_cols →
    (b.writeSpaces n).cursor_col ≤ b.max_cols := by
  induction n with
  | zero => intro b h; exact h
  | succ m ih =>
    intro b h
    show ((b.write_char ' ').writeSpaces m).cursor_col ≤ b.max_cols
    rw [← write_char_max_cols b ' ']
    exact ih (b.write_char ' ') (by rw [write_char_max_cols]; exact write_char_col_le b ' ' h)

theorem plainStep_max_cols (b : TerminalBuffer) (ch : Char) :
    (plainStep b ch).max_cols = b.max_cols := by
  unfold plainStep
  split_ifs <;> first
    | rfl
    | exact writeSpaces_max_cols _ b
    | exact write_char_max_cols b ch

theorem plainStep_col_le (b : TerminalBuffer) (ch : Char) (h : b.cursor_col ≤ b.max_cols) :
    (plainStep b ch).cursor_col ≤ b.max_cols := by
  unfold plainStep
  split_ifs <;> first
    | exact Nat.zero_le _
    | exact Nat.le_trans (Nat.sub_le _ _) h
    | exact writeSpaces_col_le _ b h
    | exact write_char_col_le b ch h
    | exact h

theorem process_noesc_col_le (s : List Char) : ∀ b : TerminalBuffer,
    (∀ c ∈ s, c ≠ '\x1b') → b.cursor_col ≤ b.max_cols →
      (b.process s).cursor_col ≤ b.max_cols ∧ (b.process s).max_cols = b.max_cols := by
  induction s with
  | nil => intro b _ h; exact ⟨h, rfl⟩
  | cons c s2 ih =>
    intro b hesc h
    rw [process_cons_noesc b c s2 (hesc c (List.mem_cons_self c s2))]
    have h2 := ih (plainStep b c) (fun d hd => hesc d (List.mem_cons_of_mem c hd))
      (by rw [plainStep_max_cols]; exact plainStep_col_le b c h)
    rw [plainStep_max_cols] at h2
    exact h2

/-- C3 (amended): writing a printable character advances cursor_col by 1
only while cursor_col is strictly below max_cols, so it can reach and
stop at max_cols itself (not max_cols - 1); for input that contains no
escape character, cursor_col stays in [0, max_cols]; CSI H and f, on the
other hand, set cursor_col to the unclamped 0-based column parameter,
which can lie far beyond max_cols - 1. -/
theorem c3_cursor_col_range :
    (∀ (b : TerminalBuffer) (ch : Char),
       (b.write_char ch).cursor_col =
         if b.cursor_col < b.max_cols then b.cursor_col + 1 else b.cursor_col)
    ∧ (∀ (s : List Char) (b : TerminalBuffer),
         (∀ c ∈ s, c ≠ '\x1b') → b.cursor_col ≤ b.max_cols →
           (b.process s).cursor_col ≤ b.max_cols)
    ∧ (∀ (b : TerminalBuffer) (params : List Char),
         (b.handle_csi params 'H').cursor_col =
           (((splitSemis params)[1]?).bind parseUsize).getD 1 - 1 ∧
         (b.handle_csi params 'f').cursor_col =
           (((splitSemis params)[1]?).bind parseUsize).getD 1 - 1) := by
  refine ⟨write_char_cursor_col, ?_, ?_⟩
  · intro s b hesc h
    exact (process_noesc_col_le s b hesc h).1
  · intro b params
    exact ⟨rfl, rfl⟩

theorem c3_witness :
    ((TerminalBuffer.new 5 3).process "abcdefg".data).cursor_col ≤ 5 :=
  c3_cursor_col_range.2.1 "abcdefg".data (TerminalBuffer.new 5 3) (by decide) (by decide)

theorem c3_counterexample :
    ¬ (((TerminalBuffer.new 200 1000).process "\x1b[1;999H".data).cursor_col ≤ 200 - 1) := by
  decide


/-- C4 (amended): when the current row is materialized, CSI K with mode 0
truncates the current row at cursor_col; mode 2 clears the row entirely;
and mode 1 blanks with (space, CurrentStyle) exactly the columns
0 .. cursor_col exclusive (capped at the row length) while preserving the
length of the row and leaving the cells from min(cursor_col, len) on, and
every other row, unchanged. The blanked range excludes the cursor column
itself, unlike the inclusive range the specification states. -/
theorem c4_erase_line_modes (b : TerminalBuffer) (h : b.cursor_row < b.lines.length) :
    ((b.handle_csi ['0'] 'K').lines =
        b.lines.set b.cursor_row ((b.lines.getD b.cursor_row []).take b.cursor_col))
    ∧ ((b.handle_csi ['2'] 'K').lines = b.lines.set b.cursor_row [])
    ∧ ((b.handle_csi ['1'] 'K').lines.length = b.lines.length)
    ∧ (∀ j : Nat, j ≠ b.cursor_row → (b.handle_csi ['1'] 'K').lines[j]? = b.lines[j]?)
    ∧ (((b.handle_csi ['1'] 'K').lines.getD b.cursor_row []).length =
        (b.lines.getD b.cursor_row []).length)
    ∧ (∀ i : Nat, i < min b.cursor_col (b.lines.getD b.cursor_row []).length →
        ((b.handle_csi ['1'] 'K').lines.getD b.cursor_row [])[i]? =
          some (' ', b.current_style))
    ∧ (∀ i : Nat, min b.cursor_col (b.lines.getD b.cursor_row []).length ≤ i →
        ((b.handle_csi ['1'] 'K').lines.getD b.cursor_row [])[i]? =
          (b.lines.getD b.cursor_row [])[i]?) := by
  have hK0 : b.handle_csi ['0'] 'K' = { b with lines := b.lines.set b.cursor_row ((b.lines.getD b.cursor_row []).take b.cursor_col) } := by
    unfold TerminalBuffer.handle_csi
    exact if_pos h
  have hK2 : b.handle_csi ['2'] 'K' = { b with lines := b.lines.set b.cursor_row [] } := by
    unfold TerminalBuffer.handle_csi
    exact if_pos h
  set row := b.lines.getD b.cursor_row [] with hrow
  set m := min b.cursor_col row.length with hm
  have hK1 : b.handle_csi ['1'] 'K' = { b with lines := b.lines.set b.cursor_row (List.replicate m (' ', b.current_style) ++ row.drop m) } := by
    unfold TerminalBuffer.handle_csi
    exact if_pos h
  have hmle : m ≤ row.length := by omega
  have hrow1 : (b.handle_csi ['1'] 'K').lines.getD b.cursor_row [] =
      List.replicate m (' ', b.current_style) ++ row.drop m := by
    rw [hK1]
    show (b.lines.set b.cursor_row _).getD b.cursor_row [] = _
    rw [List.getD_eq_getElem?_getD, List.getElem?_set_self',
      List.getElem?_eq_getElem (show b.cursor_row < b.lines.length from h)]
    rfl
  refine ⟨by rw [hK0], by rw [hK2], ?_, ?_, ?_, ?_, ?_⟩
  · rw [hK1]
    simp
  · intro j hj
    rw [hK1]
    show (b.lines.set b.cursor_row _)[j]? = _
    rw [List.getElem?_set_ne (fun he => hj he.symm)]
  · rw [hrow1]
    simp only [List.length_append, List.length_replicate, List.length_drop]
    omega
  · intro i hi
    rw [hrow1, List.getElem?_append, if_pos (by simpa using hi)]
    simp [hi]
  · intro i hi
    rw [hrow1, List.getElem?_append_right (by simpa using hi), List.getElem?_drop]
    simp only [List.length_replicate]
    congr 1
    omega

theorem c4_witness :
    ((TerminalBuffer.mk [[('a', defaultStyle), ('b', defaultStyle), ('c', defaultStyle)]] 0 1
        defaultStyle 200).handle_csi ['0'] 'K').lines = [[('a', defaultStyle)]] := by
  have h := c4_erase_line_modes
    (TerminalBuffer.mk [[('a', defaultStyle), ('b', defaultStyle), ('c', defaultStyle)]] 0 1
      defaultStyle 200) (by decide)
  rw [h.1]
  decide

theorem c4_counterexample :
    (((TerminalBuffer.mk [[('a', defaultStyle), ('b', defaultStyle), ('c', defaultStyle)]] 0 1
        defaultStyle 200).handle_csi ['1'] 'K').lines.getD 0 []).getD 1 (' ', defaultStyle) ≠
      (' ', defaultStyle) := by
  decide


/-- C7: processing ESC [ 5 ; 10 H X on a fresh screen places the character
X at row 4, column 9 (0-based). Columns 0..8 of that row hold the blank
background cell (space in the default style), and the screen renders as
exactly one line record, so every other row of the grid is still empty. -/
theorem c7_cursor_position :
    (((TerminalBuffer.new 200 1000).process "\x1b[5;10HX".data).lines.getD 4 [] =
      List.replicate 9 (' ', defaultStyle) ++ [('X', defaultStyle)])
    ∧ (((TerminalBuffer.new 200 1000).process "\x1b[5;10HX".data).to_lines =
      [[Span.mk (List.replicate 9 ' ' ++ ['X']) defaultStyle]]) := by
  constructor <;> decide


/-! The text of a rendered line is exactly the characters of its cells. -/

theorem renderStep_textOf (cells : List Cell) :
    ∀ acc : List Span × List Char × Style,
      lineText (cells.foldl renderStep acc).1 ++ (cells.foldl renderStep acc).2.1 =
        lineText acc.1 ++ acc.2.1 ++ cells.map Prod.fst := by
  induction cells with
  | nil => intro acc; simp
  | cons c cs ih =>
    intro acc
    simp only [List.foldl_cons, List.map_cons]
    rw [ih (renderStep acc c)]
    have hstep : lineText (renderStep acc c).1 ++ (renderStep acc c).2.1 =
        lineText acc.1 ++ acc.2.1 ++ [c.1] := by
      unfold renderStep
      split_ifs with h1 h2
      · simp [lineText, List.append_assoc]
      · rw [Decidable.not_not] at h2
        simp [lineText, h2]
      · simp [lineText, List.append_assoc]
    rw [hstep]
    simp [List.append_assoc]

theorem lineText_renderLine (l : List Cell) : lineText (renderLine l) = l.map Prod.fst := by
  unfold renderLine
  dsimp only
  have h := renderStep_textOf l ([], [], defaultStyle)
  simp only [lineText, List.map_nil, List.flatten_nil, List.nil_append] at h
  split_ifs with ht
  · simp only [lineText, List.map_append, List.flatten_append, List.map_cons, List.map_nil]
    simpa [lineText] using h
  · rw [Decidable.not_not] at ht
    rw [ht, List.append_nil] at h
    exact h

/-- C10: to_lines keeps exactly the rows that are nonempty at conversion
time, in order, so rows whose cells were all removed are omitted just like
rows that were never written, later lines shift up, and no emitted line
record is blank (each has at least one span and nonempty text). -/
theorem c10_to_lines_skips_empty :
    (∀ b : TerminalBuffer,
       b.to_lines = (b.lines.filter (fun l => !l.isEmpty)).map renderLine)
    ∧ (∀ b : TerminalBuffer, ∀ rec ∈ b.to_lines, rec ≠ [] ∧ lineText rec ≠ []) := by
  refine ⟨toLines_eq, ?_⟩
  intro b rec hrec
  rw [toLines_eq] at hrec
  obtain ⟨l, hl, hrfl⟩ := List.mem_map.mp hrec
  have hlne : l ≠ [] := by
    have := (List.mem_filter.mp hl).2
    simpa [List.isEmpty_iff] using this
  subst hrfl
  refine ⟨renderLine_ne_nil l hlne, ?_⟩
  rw [lineText_renderLine]
  simpa using hlne

theorem c10_witness :
    ((TerminalBuffer.mk [[('a', defaultStyle)], [], [('b', defaultStyle)]] 0 0 defaultStyle
        200).to_lines = [[Span.mk ['a'] defaultStyle], [Span.mk ['b'] defaultStyle]])
    ∧ lineText [Span.mk ['a'] defaultStyle] ≠ [] := by
  constructor
  · rw [c10_to_lines_skips_empty.1]
    decide
  · exact (c10_to_lines_skips_empty.2
      (TerminalBuffer.mk [[('a', defaultStyle)], [], [('b', defaultStyle)]] 0 0 defaultStyle 200)
      [Span.mk ['a'] defaultStyle] (by decide)).2


/-! The reader-thread buffer discipline. -/

theorem appendChunk_suffix (buf c : List Nat) : appendChunk buf c <:+ buf ++ c := by
  unfold appendChunk
  dsimp only
  split_ifs
  · exact List.drop_suffix _ _
  · exact List.suffix_refl _

theorem suffix_append_right {s t u : List Nat} (h : s <:+ t) : s ++ u <:+ t ++ u := by
  obtain ⟨w, rfl⟩ := h
  exact ⟨w, (List.append_assoc w s u).symm⟩

theorem foldl_appendChunk_suffix (chunks : List (List Nat)) :
    ∀ buf : List Nat, chunks.foldl appendChunk buf <:+ buf ++ chunks.flatten := by
  induction chunks with
  | nil => intro buf; simp
  | cons c cs ih =>
    intro buf
    rw [List.foldl_cons, List.flatten_cons, ← List.append_assoc]
    exact (ih (appendChunk buf c)).trans (suffix_append_right (appendChunk_suffix buf c))

theorem foldl_appendChunk_length (chunks : List (List Nat)) :
    ∀ buf : List Nat, (∀ c ∈ chunks, c.length ≤ BUFFER_SIZE) → buf.length ≤ 100000 →
      (chunks.foldl appendChunk buf).length ≤ 100000 := by
  induction chunks with
  | nil => intro buf _ h; exact h
  | cons c cs ih =>
    intro buf hc h
    rw [List.foldl_cons]
    refine ih (appendChunk buf c) (fun d hd => hc d (List.mem_cons_of_mem c hd)) ?_
    have hclen : c.length ≤ BUFFER_SIZE := hc c (List.mem_cons_self c cs)
    unfold appendChunk BUFFER_SIZE at *
    dsimp only
    split_ifs with hbig
    · simp only [List.length_drop, List.length_append] at *
      omega
    · omega

/-- C2: starting from the empty buffer, after any sequence of reads of at
most BUFFER_SIZE bytes each the stored buffer holds at most 100,000 bytes
(so the bound holds after every append-and-evict mutation, each reachable
buffer being the fold over some chunk prefix), what remains is a suffix of
the concatenated input stream in arrival order, and whenever an append
pushes the length over 100,000 exactly the oldest 50,000 bytes are dropped
within that same mutation. -/
theorem c2_output_buffer_cap (chunks : List (List Nat))
    (h : ∀ c ∈ chunks, c.length ≤ BUFFER_SIZE) :
    (runReader chunks).length ≤ 100000
    ∧ (runReader chunks <:+ chunks.flatten)
    ∧ (∀ buffer chunk : List Nat, 100000 < (buffer ++ chunk).length →
         appendChunk buffer chunk = (buffer ++ chunk).drop 50000) := by
  refine ⟨foldl_appendChunk_length chunks [] h (by simp), ?_, ?_⟩
  · simpa using foldl_appendChunk_suffix chunks []
  · intro buffer chunk hbig
    unfold appendChunk
    dsimp only
    rw [if_pos hbig]

theorem c2_witness :
    (runReader [[0], [1]]).length ≤ 100000 ∧ runReader [[0], [1]] <:+ [[0], [1]].flatten := by
  have h := c2_output_buffer_cap [[0], [1]] (by decide)
  exact ⟨h.1, h.2.1⟩


/-- C5: the remote shell variant has no writer for its output buffer:
read_available is a no-op, nothing ever appends, and so after any sequence
of write_input, read_available, clear_output and resize calls the buffer
is still empty and get_output returns the empty string. -/
theorem c5_remote_output_empty (ops : List RemoteOp) :
    remoteRun ops = [] ∧ remote_get_output (remoteRun ops) = [] := by
  have h : remoteRun ops = [] := by
    unfold remoteRun remoteNew
    have hstep : ∀ ops2 : List RemoteOp, List.foldl remoteStep [] ops2 = [] := by
      intro ops2
      induction ops2 with
      | nil => rfl
      | cons op t ih =>
        rw [List.foldl_cons]
        have : remoteStep [] op = [] := by cases op <;> rfl
        rw [this, ih]
    exact hstep ops
  exact ⟨h, by rw [h]; rfl⟩

/-- C8 (amended): get_output and clear_output each hold at most one of the
two locks at a time (clear_output takes buffer then cache strictly one
after the other), but the reader-thread append path does hold both locks
simultaneously: it acquires the cache lock inside the buffer critical
section to rebuild the cached string. -/
theorem c8_lock_paths :
    pathHoldsBoth getOutputPath = false
    ∧ pathHoldsBoth clearOutputPath = false
    ∧ pathHoldsBoth readerAppendPath = true := by
  decide

theorem c8_counterexample : pathHoldsBoth readerAppendPath = true := by
  decide


/-! The Style Resolver equations. -/

theorem sgrGo_nil (f : Nat) (st : Style) : sgrGo f [] st = st := by
  cases f <;> rfl

theorem sgrGo_fuel : ∀ (f1 : Nat) (parts : List (List Char)) (st : Style) (f2 : Nat),
    parts.length ≤ f1 → parts.length ≤ f2 → sgrGo f1 parts st = sgrGo f2 parts st := by
  intro f1
  induction f1 with
  | zero =>
    intro parts st f2 h1 _
    have hp : parts = [] := by
      cases parts with
      | nil => rfl
      | cons p r => simp at h1
    subst hp
    cases f2 <;> rfl
  | succ g ih =>
    intro parts st f2 h1 h2
    cases parts with
    | nil => cases f2 <;> rfl
    | cons p rest =>
      cases f2 with
      | zero => simp at h2
      | succ g2 =>
        have hr : rest.length ≤ g := by simp at h1; omega
        have hr2 : rest.length ≤ g2 := by simp at h2; omega
        unfold sgrGo
        by_cases hx : p = ['3','8'] ∨ p = ['4','8']
        · rw [if_pos hx, if_pos hx]
          cases rest with
          | nil => simp [sgrGo_nil]
          | cons q rest3 =>
            cases rest3 with
            | nil => exact ih [q] _ g2 (by simpa using hr) (by simpa using hr2)
            | cons n rest2 =>
              dsimp only
              by_cases hq : q = ['5']
              · rw [if_pos hq, if_pos hq]
                exact ih rest2 _ g2 (by simp at hr; omega) (by simp at hr2; omega)
              · rw [if_neg hq, if_neg hq]
                exact ih (q :: n :: rest2) _ g2 hr hr2
        · rw [if_neg hx, if_neg hx]
          exact ih rest _ g2 hr hr2

theorem sgrApply_unknown (p : List Char) (st : Style) (h : isKnownSgr p = false) :
    sgrApply p st = st := by
  have hne : ∀ q : List Char, isKnownSgr q = true → p ≠ q := by
    intro q hq hpq
    rw [hpq, hq] at h
    simp at h
  unfold sgrApply
  rw [if_neg (hne ['0'] (by decide))]
  rw [if_neg (hne ['1'] (by decide))]
  rw [if_neg (hne ['4'] (by decide))]
  rw [if_neg (hne ['7'] (by decide))]
  rw [if_neg (hne ['3','0'] (by decide))]
  rw [if_neg (hne ['3','1'] (by decide))]
  rw [if_neg (hne ['3','2'] (by decide))]
  rw [if_neg (hne ['3','3'] (by decide))]
  rw [if_neg (hne ['3','4'] (by decide))]
  rw [if_neg (hne ['3','5'] (by decide))]
  rw [if_neg (hne ['3','6'] (by decide))]
  rw [if_neg (hne ['3','7'] (by decide))]
  rw [if_neg (hne ['9','0'] (by decide))]
  rw [if_neg (hne ['9','1'] (by decide))]
  rw [if_neg (hne ['9','2'] (by decide))]
  rw [if_neg (hne ['9','3'] (by decide))]
  rw [if_neg (hne ['9','4'] (by decide))]
  rw [if_neg (hne ['9','5'] (by decide))]
  rw [if_neg (hne ['9','6'] (by decide))]
  rw [if_neg (hne ['9','7'] (by decide))]
  rw [if_neg (hne ['4','0'] (by decide))]
  rw [if_neg (hne ['4','1'] (by decide))]
  rw [if_neg (hne ['4','2'] (by decide))]
  rw [if_neg (hne ['4','3'] (by decide))]
  rw [if_neg (hne ['4','4'] (by decide))]
  rw [if_neg (hne ['4','5'] (by decide))]
  rw [if_neg (hne ['4','6'] (by decide))]
  rw [if_neg (hne ['4','7'] (by decide))]

/-- C6: the resolver applies codes cumulatively onto the current style;
an extended color code 38;5;N (resp. 48;5;N) with a valid index sets the
indexed foreground (resp. background) and consumes the two parameters that
follow it; an extended color code missing its trailing index leaves the
style unchanged for that code while the rest of the list is still
processed; and every unrecognized code is a no-op. -/
theorem c6_sgr_resolver :
    (∀ (st : Style) (n : List Char) (v : Nat) (rest : List (List Char)),
       parseU8 n = some v →
         (sgrLoop (['3','8'] :: ['5'] :: n :: rest) st =
            sgrLoop rest (st.setFg (Color.Indexed v)))
         ∧ (sgrLoop (['4','8'] :: ['5'] :: n :: rest) st =
            sgrLoop rest (st.setBg (Color.Indexed v))))
    ∧ (∀ st : Style,
        sgrLoop [['3','8']] st = st ∧ sgrLoop [['3','8'], ['5']] st = st
        ∧ sgrLoop [['4','8']] st = st ∧ sgrLoop [['4','8'], ['5']] st = st)
    ∧ (∀ (st : Style) (p : List Char) (rest : List (List Char)),
        isKnownSgr p = false → sgrLoop (p :: rest) st = sgrLoop rest st) := by
  refine ⟨?_, ?_, ?_⟩
  · intro st n v rest hparse
    constructor
    · show sgrGo (rest.length + 2 + 1) (['3','8'] :: ['5'] :: n :: rest) st = _
      unfold sgrGo
      rw [if_pos (Or.inl rfl)]
      dsimp only
      rw [if_pos rfl]
      unfold sgrExtended
      rw [if_pos rfl, hparse]
      exact sgrGo_fuel (rest.length + 2) rest _ rest.length (by omega) (Nat.le_refl _)
    · show sgrGo (rest.length + 2 + 1) (['4','8'] :: ['5'] :: n :: rest) st = _
      unfold sgrGo
      rw [if_pos (Or.inr rfl)]
      dsimp only
      rw [if_pos rfl]
      unfold sgrExtended
      rw [if_neg (by decide), hparse]
      exact sgrGo_fuel (rest.length + 2) rest _ rest.length (by omega) (Nat.le_refl _)
  · intro st
    exact ⟨rfl, rfl, rfl, rfl⟩
  · intro st p rest h
    have hx : ¬(p = ['3','8'] ∨ p = ['4','8']) := by
      intro hc
      cases hc with
      | inl h38 => rw [h38] at h; exact absurd h (by decide)
      | inr h48 => rw [h48] at h; exact absurd h (by decide)
    show sgrGo (rest.length + 1) (p :: rest) st = _
    unfold sgrGo
    rw [if_neg hx, sgrApply_unknown p st h]
    rfl

theorem c6_witness :
    (sgrLoop [['3','8'], ['5'], ['1','9','6']] Style.mkDefault =
      Style.mkDefault.setFg (Color.Indexed 196))
    ∧ sgrLoop [['9','9']] Style.mkDefault = Style.mkDefault := by
  constructor
  · exact (c6_sgr_resolver.1 Style.mkDefault ['1','9','6'] 196 [] (by decide)).1
  · exact c6_sgr_resolver.2.2 Style.mkDefault ['9','9'] [] (by decide)


/-! The bounds-checked interpreter never fails: every checked access is
covered by a guard of the code (ensure_line before the row access in
write_char, the cursor_row < lines.len() tests before the J and K
erase bodies), so the checked mirror computes some of the unchecked
result on every input. -/

theorem write_charO_eq (b : TerminalBuffer) (ch : Char) :
    b.write_charO ch = some (b.write_char ch) := by
  unfold TerminalBuffer.write_charO TerminalBuffer.write_char TerminalBuffer.ensure_line
  dsimp only
  have hlt : b.cursor_row <
      (b.lines ++ List.replicate (b.cursor_row + 1 - b.lines.length) ([] : List Cell)).length := by
    simp
    omega
  rw [List.getElem?_eq_getElem hlt]
  dsimp only
  rw [List.getD_eq_getElem?_getD, List.getElem?_eq_getElem hlt]
  simp only [Option.getD_some]
  split_ifs <;> rfl

theorem writeSpacesO_eq (n : Nat) : ∀ b : TerminalBuffer,
    b.writeSpacesO n = some (b.writeSpaces n) := by
  induction n with
  | zero => intro b; rfl
  | succ m ih =>
    intro b
    show (match b.write_charO ' ' with
          | none => none
          | some b2 => b2.writeSpacesO m) = some ((b.write_char ' ').writeSpaces m)
    rw [write_charO_eq]
    exact ih (b.write_char ' ')

theorem handle_csiO_eq (b : TerminalBuffer) (params : List Char) (cmd : Char) :
    b.handle_csiO params cmd = some (b.handle_csi params cmd) := by
  unfold TerminalBuffer.handle_csiO TerminalBuffer.handle_csi
  dsimp only
  by_cases h1 : cmd = 'm'
  · rw [if_pos h1, if_pos h1]
  · rw [if_neg h1, if_neg h1]
    by_cases h2 : cmd = 'H' ∨ cmd = 'f'
    · rw [if_pos h2, if_pos h2]
    · rw [if_neg h2, if_neg h2]
      by_cases h3 : cmd = 'A'
      · rw [if_pos h3, if_pos h3]
      · rw [if_neg h3, if_neg h3]
        by_cases h4 : cmd = 'B'
        · rw [if_pos h4, if_pos h4]
        · rw [if_neg h4, if_neg h4]
          by_cases h5 : cmd = 'C'
          · rw [if_pos h5, if_pos h5]
          · rw [if_neg h5, if_neg h5]
            by_cases h6 : cmd = 'D'
            · rw [if_pos h6, if_pos h6]
            · rw [if_neg h6, if_neg h6]
              by_cases h7 : cmd = 'J'
              · rw [if_pos h7, if_pos h7]
                by_cases hm0 : (parseUsize params).getD 0 = 0
                · rw [if_pos hm0, if_pos hm0]
                  by_cases hg : b.cursor_row < b.lines.length
                  · rw [if_pos hg, if_pos hg, List.getElem?_eq_getElem hg]
                    dsimp only
                    rw [List.getD_eq_getElem?_getD, List.getElem?_eq_getElem hg]
                    rfl
                  · rw [if_neg hg, if_neg hg]
                · rw [if_neg hm0, if_neg hm0]
                  by_cases hm2 : (parseUsize params).getD 0 = 2
                  · rw [if_pos hm2, if_pos hm2]
                  · rw [if_neg hm2, if_neg hm2]
              · rw [if_neg h7, if_neg h7]
                by_cases h8 : cmd = 'K'
                · rw [if_pos h8, if_pos h8]
                  by_cases hg : b.cursor_row < b.lines.length
                  · rw [if_pos hg, if_pos hg, List.getElem?_eq_getElem hg]
                    dsimp only
                    rw [List.getD_eq_getElem?_getD, List.getElem?_eq_getElem hg]
                    split_ifs <;> rfl
                  · rw [if_neg hg, if_neg hg]
                · rw [if_neg h8, if_neg h8]
                  by_cases h9 : cmd = 'G'
                  · rw [if_pos h9, if_pos h9]
                  · rw [if_neg h9, if_neg h9]
                    by_cases h10 : cmd = 'd'
                    · rw [if_pos h10, if_pos h10]
                    · rw [if_neg h10, if_neg h10]

theorem processGoO_eq (fuel : Nat) : ∀ (s : List Char) (b : TerminalBuffer),
    TerminalBuffer.processGoO fuel b s = some (TerminalBuffer.processGo fuel b s) := by
  induction fuel with
  | zero => intro s b; cases s <;> rfl
  | succ f ih =>
    intro s b
    cases s with
    | nil => rfl
    | cons ch rest =>
      unfold TerminalBuffer.processGoO TerminalBuffer.processGo
      by_cases hesc : ch = '\x1b'
      · rw [if_pos hesc, if_pos hesc]
        cases rest with
        | nil => rfl
        | cons c2 r2 =>
          try dsimp only
          by_cases h2 : c2 = '['
          · rw [if_pos h2, if_pos h2]
            cases hcp : (collectParams r2).2 with
            | nil => simp only [hcp]
            | cons cmd rest4 =>
              simp only [hcp, handle_csiO_eq]
              exact ih rest4 _
          · rw [if_neg h2, if_neg h2]
            by_cases h3 : c2 = ']'
            · rw [if_pos h3, if_pos h3]
              exact ih _ b
            · rw [if_neg h3, if_neg h3]
              by_cases h4 : c2 = '(' ∨ c2 = ')'
              · rw [if_pos h4, if_pos h4]
                exact ih _ b
              · rw [if_neg h4, if_neg h4]
                by_cases h5 : c2 = '=' ∨ c2 = '>'
                · rw [if_pos h5, if_pos h5]
                  exact ih r2 b
                · rw [if_neg h5, if_neg h5]
                  exact ih r2 b
      · rw [if_neg hesc, if_neg hesc]
        by_cases hn : ch = '\n'
        · rw [if_pos hn, if_pos hn]
          exact ih rest _
        · rw [if_neg hn, if_neg hn]
          by_cases hcr : ch = '\r'
          · rw [if_pos hcr, if_pos hcr]
            exact ih rest _
          · rw [if_neg hcr, if_neg hcr]
            by_cases hbs : ch = '\x08'
            · rw [if_pos hbs, if_pos hbs]
              exact ih rest _
            · rw [if_neg hbs, if_neg hbs]
              by_cases ht : ch = '\t'
              · rw [if_pos ht, if_pos ht, writeSpacesO_eq]
                exact ih rest _
              · rw [if_neg ht, if_neg ht]
                by_cases hpr : isControlChar ch = false
                · rw [if_pos hpr, if_pos hpr, write_charO_eq]
                  exact ih rest _
                · rw [if_neg hpr, if_neg hpr]
                  exact ih rest b

/-- C9: the interpreter is total: the bounds-checked mirror of process,
in which every grid access the Rust code performs by indexing returns
none when out of range, always succeeds and computes exactly the result
of the unchecked embedding, on every state and every input; to_lines
iterates over the rows without any indexing at all. -/
theorem c9_process_total (b : TerminalBuffer) (s : List Char) :
    b.processO s = some (b.process s) :=
  processGoO_eq s.length s b

end RC
